import Mathlib

/-!
Shallow embedding of the Hacker News digest script (`src/main.py`).

Python strings are modelled as Lean `String` (a wrapper over `List Char`),
HTML documents as lists of DOM-like `Node` trees, and the two HTTP calls as
explicit `Except`-valued inputs (the network outcome is an argument of the
modelled function).  Python exceptions are modelled with `Option`/`Except`:
a `none` result of a row parser is a raised exception caught by the per-row
handler.
-/

/-- Python `str.strip()`: remove leading and trailing whitespace characters. -/
def pyStrip (s : String) : String :=
  ⟨((s.data.dropWhile Char.isWhitespace).reverse.dropWhile Char.isWhitespace).reverse⟩

/-- Helper for Python `str.split()`: split a character list on whitespace runs,
`acc` holds the (reversed) current word. -/
def wordsAux : List Char → List Char → List (List Char)
  | [], acc => if acc.isEmpty then [] else [acc.reverse]
  | c :: cs, acc =>
    if c.isWhitespace then
      if acc.isEmpty then wordsAux cs [] else acc.reverse :: wordsAux cs []
    else wordsAux cs (c :: acc)

/-- Python `str.split()` with no arguments: maximal whitespace-separated words,
no empty strings in the result. -/
def pySplit (s : String) : List String := (wordsAux s.data []).map String.mk

/-- Numeric value of a run of decimal digit characters. -/
def digitsToNat (l : List Char) : Nat := l.foldl (fun n c => 10 * n + (c.toNat - 48)) 0

/-- Python `int(token)` on a string token: after stripping surrounding
whitespace, an optional sign followed by a nonempty run of decimal digits;
`none` models a raised `ValueError`. -/
def pyInt (s : String) : Option Int :=
  match (pyStrip s).data with
  | [] => none
  | c :: cs =>
    if c = '-' then
      if cs.isEmpty || !cs.all Char.isDigit then none else some (-(digitsToNat cs : Int))
    else if c = '+' then
      if cs.isEmpty || !cs.all Char.isDigit then none else some ((digitsToNat cs : Int))
    else
      if !(c :: cs).all Char.isDigit then none else some ((digitsToNat (c :: cs) : Int))

/-- Python `needle in hay` on lists: does `needle` occur as a contiguous
sublist of `hay`? -/
def listHasSub (needle : List Char) : List Char → Bool
  | [] => needle.isEmpty
  | c :: cs => needle.isPrefixOf (c :: cs) || listHasSub needle cs

/-- Python substring test `needle in hay` on strings. -/
def strContains (hay needle : String) : Bool := listHasSub needle.data hay.data

/-- Python `s.startswith(pre)`. -/
def pyStartsWith (s pre : String) : Bool := pre.data.isPrefixOf s.data

/-- Is this string empty? (Executable on the character-list model.) -/
def strIsEmpty (s : String) : Bool := s.data.isEmpty

/-- A DOM-like HTML node: either a text node or an element with a tag,
attributes and children. -/
inductive Node where
  | text (s : String)
  | elem (tag : String) (attrs : List (String × String)) (children : List Node)
deriving Repr

/-- The tags removed by `fetch_webpage` before text extraction
(`soup(["script", "style", "nav", "header", "footer", "aside"])`). -/
def strippedTags : List String := ["script", "style", "nav", "header", "footer", "aside"]

/-- The `element.decompose()` loop of `fetch_webpage`: remove every element
whose tag is in `strippedTags`, together with its whole subtree. -/
def removeBanned : List Node → List Node
  | [] => []
  | .text s :: ns => .text s :: removeBanned ns
  | .elem t a c :: ns =>
    if strippedTags.contains t then removeBanned ns
    else .elem t a (removeBanned c) :: removeBanned ns

/-- The text fragments collected by `soup.get_text(separator="\n", strip=True)`:
each text node's content stripped of surrounding whitespace, empties dropped,
in document order. -/
def fragments : List Node → List String
  | [] => []
  | .text s :: ns =>
    if strIsEmpty (pyStrip s) then fragments ns else pyStrip s :: fragments ns
  | .elem _ _ c :: ns => fragments c ++ fragments ns

/-- Reference extraction that never enters a stripped-tag subtree: the text
fragments of a document restricted to nodes outside `strippedTags` elements. -/
def visibleFragments : List Node → List String
  | [] => []
  | .text s :: ns =>
    if strIsEmpty (pyStrip s) then visibleFragments ns else pyStrip s :: visibleFragments ns
  | .elem t _ c :: ns =>
    if strippedTags.contains t then visibleFragments ns
    else visibleFragments c ++ visibleFragments ns

/-- `soup.get_text(separator="\n", strip=True)`: stripped text fragments
joined with a newline separator. -/
def getText (ns : List Node) : String := String.intercalate "\n" (fragments ns)

/-- The truncation marker appended by `fetch_webpage`. -/
def truncMarker : String := "\n\n[Content truncated...]"

/-- The truncation step of `fetch_webpage`: `if len(text) > 15000:
text = text[:15000] + "\n\n[Content truncated...]"`. -/
def pyTruncate (text : String) : String :=
  if 15000 < text.length then ⟨text.data.take 15000⟩ ++ truncMarker else text

/-- The success path of `fetch_webpage` after the HTTP response is in hand:
parse, decompose stripped tags, extract text, truncate. -/
def extractText (html : List Node) : String := pyTruncate (getText (removeBanned html))

/-- `fetch_webpage`: the HTTP outcome is an explicit argument (`Except.error
msg` models any exception raised inside the `try` block, with `msg` its string
rendering).  Every outcome returns a string in-band; no exception escapes. -/
def fetch_webpage (url : String) (result : Except String (List Node)) : String :=
  match result with
  | .error msg => "Error fetching " ++ url ++ ": " ++ msg
  | .ok html => extractText html

/-- A link (`<a>`) as `fetch_hn_front_page` reads it: `href` attribute
(`get("href", "")` defaults to `""` when absent) and inner text. -/
structure Anchor where
  href : Option String
  innerText : String
deriving Repr, DecidableEq

/-- One `<tr>` of the front-page table, holding exactly the pieces
`fetch_hn_front_page` queries from a row: whether the row matches
`tr.athing`, the result of `select_one("span.titleline > a")`, the stripped
text of `select_one("span.score")` when present, and the links
`select("a")` of `select_one("td.subtext")` when that cell is present. -/
structure Row where
  isAthing : Bool
  titleLink : Option Anchor
  scoreText : Option String
  subtextLinks : Option (List Anchor)
deriving Repr, DecidableEq

/-- The article record appended by `fetch_hn_front_page`
(`{"title": ..., "url": ..., "points": ..., "comments": ...}`). -/
structure Story where
  title : String
  url : String
  points : Int
  comments : Int
deriving Repr, DecidableEq

/-- The rewrite of lines 79-80: a relative `item?` link gets the site origin
prefixed; every other href is passed through unchanged. -/
def resolveLink (link : String) : String :=
  if pyStartsWith link "item?" then "https://news.ycombinator.com/" ++ link else link

/-- Lines 87-91: from the metadata row (if any), parse `points` from the
score span's text via `int(score_text.split()[0])`. `none` models the
exception (IndexError on an empty split, ValueError on a bad token) that
escapes to the per-row handler. -/
def parsePoints (next : Option Row) : Option Int :=
  match next with
  | none => some 0
  | some sub =>
    match sub.scoreText with
    | none => some 0
    | some scoreText =>
      match (pySplit scoreText).head? with
      | none => none
      | some tok => pyInt tok

/-- Does this link's stripped text contain the substring "comment"? -/
def matchesComment (a : Anchor) : Bool := strContains (pyStrip a.innerText) "comment"

/-- The value a matching comments link contributes: its leading integer
token, or 0 when `int()` raises ValueError (lines 100-103). -/
def commentVal (a : Anchor) : Int :=
  match (pySplit (pyStrip a.innerText)).head? with
  | none => 0
  | some tok => (pyInt tok).getD 0

/-- One iteration of the `for a in links` loop (lines 97-103): a matching
link overwrites `comments` with its value; `none` models an IndexError
(empty split), which the inner `except ValueError` does not catch. -/
def commentStep (c : Int) (a : Anchor) : Option Int :=
  let text := pyStrip a.innerText
  if strContains text "comment" then
    match (pySplit text).head? with
    | none => none
    | some tok => some ((pyInt tok).getD 0)
  else some c

/-- The whole comments loop over the subtext links, starting from 0. -/
def commentsFold (links : List Anchor) : Option Int := links.foldlM commentStep 0

/-- Lines 93-103: `comments` from the metadata row, defaulting to 0 when
there is no metadata row, no `td.subtext`, or no matching link. -/
def parseComments (next : Option Row) : Option Int :=
  match next with
  | none => some 0
  | some sub =>
    match sub.subtextLinks with
    | none => some 0
    | some links => commentsFold links

/-- The body of the per-row `try` block (lines 69-110): `none` is either the
`continue` for a missing title link or an exception reaching the per-row
handler (line 112), both of which drop the row. `next` is
`row.find_next_sibling("tr")`. -/
def parseStoryRow (row : Row) (next : Option Row) : Option Story :=
  match row.titleLink with
  | none => none
  | some a =>
    let title := pyStrip a.innerText
    let link := resolveLink (a.href.getD "")
    match parsePoints next with
    | none => none
    | some pts =>
      match parseComments next with
      | none => none
      | some cs => some ⟨title, link, pts, cs⟩

/-- The parsing core of `fetch_hn_front_page`: iterate over the rows of the
page (every element of the list is a `<tr>`), parse each `tr.athing` row
with the immediately following row as its metadata row, and keep the
successes in order. -/
def parseFrontPage : List Row → List Story
  | [] => []
  | r :: rest =>
    if r.isAthing then
      match parseStoryRow r rest.head? with
      | some st => st :: parseFrontPage rest
      | none => parseFrontPage rest
    else parseFrontPage rest

/-- `fetch_hn_front_page` itself: the front-page HTTP outcome is an explicit
argument; a fetch failure propagates (the function raises), a success is
parsed by `parseFrontPage`. -/
def fetch_hn_front_page (result : Except String (List Row)) : Except String (List Story) :=
  result.map parseFrontPage

/-- A successful per-story summary (the dict built at lines 174-180). -/
structure Summary where
  story : Story
  summaryText : String
deriving Repr, DecidableEq

/-- The per-story loop of `main` (lines 159-186): iterate over
`articles[:30]`; the external agent call is modelled by the oracle
`summarize`, where `none` models a raised exception, which is caught and
skips the story. -/
def summarizeBatch (articles : List Story) (summarize : Story → Option String) :
    List Summary :=
  (articles.take 30).filterMap (fun a => (summarize a).map (fun s => Summary.mk a s))

/-- One article block of the digest prompt (lines 199-206). -/
def summaryBlock (s : Summary) : String :=
  "\n---\nTitle: " ++ s.story.title ++
  "\nPoints: " ++ toString s.story.points ++ " | Comments: " ++ toString s.story.comments ++
  "\nURL: " ++ s.story.url ++
  "\nSummary: " ++ s.summaryText ++ "\n"

/-- The consolidated digest prompt (lines 193-217): header, one block per
successful summary, footer. -/
def digestPrompt (ss : List Summary) : String :=
  "Based on the following article summaries from Hacker News, create a cohesive daily digest.\nGroup related articles together if possible, and highlight the most significant stories.\n\nArticles:\n"
  ++ String.join (ss.map summaryBlock)
  ++ "\n\nPlease create a well-formatted digest with:\n1. Top Stories (2-3 most significant)\n2. Tech/Development news\n3. Business/Startup news\n4. Other interesting reads\n5. A brief overall summary of today's HN front page themes\n\nFormat it nicely for reading."

/-- The externally observable effects of one run of `main`: the informational
message of the empty branch, the number of per-story agent invocations, the
number of digest-agent invocations, the accumulated summaries, and the
output file (name, content) if one is written. -/
structure RunResult where
  infoMessage : Option String
  summarizeCalls : Nat
  digestCalls : Nat
  summaries : List Summary
  outputFile : Option (String × String)
deriving Repr, DecidableEq

/-- `main` after the front page has been fetched and parsed into `articles`
(lines 139-239): the per-story agent is the oracle `summarize`, the fresh
digest agent is the oracle `digest`, and `dateStr` is today's date stamp. -/
def runMain (articles : List Story) (summarize : Story → Option String)
    (digest : String → String) (dateStr : String) : RunResult :=
  if articles.isEmpty then
    { infoMessage := some "No articles found. Exiting."
      summarizeCalls := 0
      digestCalls := 0
      summaries := []
      outputFile := none }
  else
    let ss := summarizeBatch articles summarize
    let finalDigest := digest (digestPrompt ss)
    { infoMessage := none
      summarizeCalls := (articles.take 30).length
      digestCalls := 1
      summaries := ss
      outputFile := some ("hn_digest_" ++ dateStr ++ ".md",
        "# Hacker News Digest - " ++ dateStr ++ "\n\n" ++ finalDigest) }

/-- Well-formedness of a metadata row's score span: absent, or its text's
leading token parses as a non-negative integer. -/
def wfScore : Option String → Bool
  | none => true
  | some t =>
    match (pySplit t).head? with
    | none => false
    | some tok =>
      match pyInt tok with
      | none => false
      | some k => decide (0 ≤ k)

/-- Well-formedness of one subtext link: if it is a comments link, its
leading token's parsed value (0 on `ValueError`) is non-negative. -/
def wfLink (a : Anchor) : Bool :=
  if matchesComment a then decide (0 ≤ commentVal a) else true

/-- Well-formedness of a story row together with its metadata row: the story
row matches `tr.athing` and has a title link with non-empty stripped text;
the metadata row is not itself a story row, its score (if any) parses to a
non-negative integer, and its comments links (if any) are well formed. -/
def wellFormedBlock (s m : Row) : Bool :=
  s.isAthing &&
  (match s.titleLink with
   | none => false
   | some a => !strIsEmpty (pyStrip a.innerText)) &&
  !m.isAthing &&
  wfScore m.scoreText &&
  (match m.subtextLinks with
   | none => true
   | some links => links.all wfLink)

/-- A front page made of story-row/metadata-row pairs, in display order. -/
def pageOfBlocks (blocks : List (Row × Row)) : List Row :=
  blocks.flatMap (fun b => [b.1, b.2])

/-- The story row of the worked example in the spec (title "Example",
href `https://example.com`). -/
def exStoryRow : Row := ⟨true, some ⟨some "https://example.com", "Example"⟩, none, none⟩

/-- The metadata row of the worked example: score "42 points" and a
"7 comments" link. -/
def exMetaRow : Row := ⟨false, none, some "42 points", some [⟨some "item?id=1", "7 comments"⟩]⟩

/-- A story row whose metadata row has a malformed score text. -/
def c2row : Row := ⟨true, some ⟨some "https://example.com", "Example"⟩, none, none⟩

/-- A metadata row with score text whose leading token is not an integer. -/
def c2meta : Row := ⟨false, none, some "abc points", none⟩

/-- A story row resolving a relative `item?` link. -/
def c6row : Row := ⟨true, some ⟨some "item?id=123", "Example"⟩, none, none⟩

/-- A metadata row with two comments links, "3 comments" then "7 comments". -/
def c10meta : Row :=
  ⟨false, none, none, some [⟨some "item?id=1", "3 comments"⟩, ⟨some "item?id=1", "7 comments"⟩]⟩

/-- A 15001-character text, longer than the 15000-character bound. -/
def bigA : String := String.mk (List.replicate 15001 'a')

/-- A document whose visible text is longer than the truncation bound. -/
def bigDoc : List Node := [Node.text bigA]

lemma dropWhile_eq_self_of_all {p : Char → Bool} {l : List Char}
    (h : ∀ c ∈ l, p c = false) : l.dropWhile p = l := by
  cases l with
  | nil => rfl
  | cons c cs => simp [List.dropWhile_cons, h c (List.mem_cons_self c cs)]

lemma pyStrip_of_no_ws {l : List Char} (h : ∀ c ∈ l, c.isWhitespace = false) :
    pyStrip ⟨l⟩ = ⟨l⟩ := by
  unfold pyStrip
  rw [dropWhile_eq_self_of_all h,
    dropWhile_eq_self_of_all (fun c hc => h c (List.mem_reverse.mp hc)),
    List.reverse_reverse]

lemma fragments_removeBanned (ns : List Node) :
    fragments (removeBanned ns) = visibleFragments ns := by
  induction ns using removeBanned.induct with
  | case1 => simp [removeBanned, fragments, visibleFragments]
  | case2 s ns ih => simp [removeBanned, fragments, visibleFragments, ih]
  | case3 t a c ns h ih =>
    simp at h
    simp [removeBanned, fragments, visibleFragments, h, ih]
  | case4 t a c ns h ih1 ih2 =>
    simp at h
    simp [removeBanned, fragments, visibleFragments, h, ih1, ih2]

/-- C5: the text returned by `extractText` contains no text originating from
a script, style, nav, header, footer, or aside element or any of their
subtrees: the fragments surviving the decompose pass are exactly those of
nodes outside every such element, so the returned text is assembled from
those fragments alone. -/
theorem extractText_omits_stripped_tags (html : List Node) :
    fragments (removeBanned html) = visibleFragments html ∧
    extractText html = pyTruncate (String.intercalate "\n" (visibleFragments html)) := by
  refine ⟨fragments_removeBanned html, ?_⟩
  unfold extractText getText
  rw [fragments_removeBanned html]

/-- C4: on any fetch or parse failure, `fetch_webpage` returns the in-band
string "Error fetching {url}: {message}"; on success it returns the
extracted text. Every outcome is an ordinary return value, so no exception
reaches the caller. -/
theorem fetch_webpage_in_band (url : String) :
    (∀ msg, fetch_webpage url (Except.error msg) = "Error fetching " ++ url ++ ": " ++ msg) ∧
    (∀ html, fetch_webpage url (Except.ok html) = extractText html) :=
  ⟨fun _ => rfl, fun _ => rfl⟩

/-- C3: if the extracted visible text exceeds 15000 characters, `extractText`
returns exactly the first 15000 characters followed by the literal marker
(and that prefix really has 15000 characters); text of at most 15000
characters is returned unchanged, without the marker. -/
theorem extractText_truncates (html : List Node) :
    (15000 < (getText (removeBanned html)).length →
      extractText html =
        String.mk ((getText (removeBanned html)).data.take 15000) ++ truncMarker ∧
      (String.mk ((getText (removeBanned html)).data.take 15000)).length = 15000) ∧
    ((getText (removeBanned html)).length ≤ 15000 →
      extractText html = getText (removeBanned html)) := by
  constructor
  · intro h
    constructor
    · unfold extractText pyTruncate
      rw [if_pos h]
    · show ((getText (removeBanned html)).data.take 15000).length = 15000
      rw [List.length_take]
      have : (getText (removeBanned html)).data.length = (getText (removeBanned html)).length := rfl
      omega
  · intro h
    unfold extractText pyTruncate
    rw [if_neg (by omega)]

lemma pyStrip_bigA : pyStrip bigA = bigA := by
  unfold bigA
  apply pyStrip_of_no_ws
  intro c hc
  rw [List.mem_replicate] at hc
  rw [hc.2]
  decide

lemma getText_bigDoc : getText (removeBanned bigDoc) = bigA := by
  have h1 : removeBanned bigDoc = bigDoc := by simp [removeBanned, bigDoc]
  have h3 : strIsEmpty (pyStrip bigA) = false := by
    rw [pyStrip_bigA]
    show (List.replicate 15001 'a').isEmpty = false
    rw [List.replicate_succ]
    rfl
  rw [h1]
  show getText [Node.text bigA] = bigA
  unfold getText
  simp [fragments, h3, pyStrip_bigA]
  rfl

lemma length_bigA : bigA.length = 15001 := by
  show (List.replicate 15001 'a').length = 15001
  exact List.length_replicate 15001 'a'

/-- Witness for C3: a document whose visible text has 15001 characters is
truncated to its first 15000 characters plus the marker. -/
theorem extractText_truncates_witness :
    15000 < (getText (removeBanned bigDoc)).length ∧
    extractText bigDoc =
      String.mk ((getText (removeBanned bigDoc)).data.take 15000) ++ truncMarker := by
  have h : 15000 < (getText (removeBanned bigDoc)).length := by
    rw [getText_bigDoc, length_bigA]
    omega
  exact ⟨h, ((extractText_truncates bigDoc).1 h).1⟩

/-- C6: the Story's url of a parsed row is the href with the site origin
prefixed when the href begins with "item?", and the unchanged href
otherwise. -/
theorem story_url_resolution (row : Row) (next : Option Row) (a : Anchor) (st : Story)
    (l : String) (ha : row.titleLink = some a) (hl : a.href = some l)
    (hst : parseStoryRow row next = some st) :
    (pyStartsWith l "item?" = true → st.url = "https://news.ycombinator.com/" ++ l) ∧
    (pyStartsWith l "item?" = false → st.url = l) := by
  simp only [parseStoryRow, ha] at hst
  have hurl : st.url = resolveLink (a.href.getD "") := by
    cases hp : parsePoints next with
    | none => rw [hp] at hst; exact absurd hst (by simp)
    | some p =>
      rw [hp] at hst
      cases hc : parseComments next with
      | none => rw [hc] at hst; exact absurd hst (by simp)
      | some c =>
        rw [hc] at hst
        simp only [Option.some.injEq] at hst
        rw [← hst]
  rw [hl] at hurl
  simp only [Option.getD_some] at hurl
  constructor <;> intro h <;> rw [hurl] <;> simp [resolveLink, h]

/-- Witness for C6: a relative `item?id=123` href is rewritten to the
absolute HN url. -/
theorem story_url_resolution_witness :
    pyStartsWith "item?id=123" "item?" = true ∧
    ∃ st, parseStoryRow c6row none = some st ∧
      st.url = "https://news.ycombinator.com/item?id=123" := by
  have hst : parseStoryRow c6row none =
      some ⟨"Example", "https://news.ycombinator.com/item?id=123", 0, 0⟩ := by decide
  refine ⟨by decide, _, hst, ?_⟩
  exact (story_url_resolution c6row none ⟨some "item?id=123", "Example"⟩ _
    "item?id=123" rfl rfl hst).1 (by decide)

/-- C7: a story row with a title link but no following sibling row parses
successfully (no exception) to a Story with points = 0 and comments = 0. -/
theorem missing_metadata_defaults (row : Row) (a : Anchor)
    (hs : row.isAthing = true) (ha : row.titleLink = some a) :
    ∃ st, parseFrontPage [row] = [st] ∧ st.points = 0 ∧ st.comments = 0 := by
  refine ⟨⟨pyStrip a.innerText, resolveLink (a.href.getD ""), 0, 0⟩, ?_, rfl, rfl⟩
  simp [parseFrontPage, hs, parseStoryRow, ha, parsePoints, parseComments]

/-- Witness for C7: the example story row alone on the page yields a story
with zero points and zero comments. -/
theorem missing_metadata_defaults_witness :
    exStoryRow.isAthing = true ∧
    ∃ st, parseFrontPage [exStoryRow] = [st] ∧ st.points = 0 ∧ st.comments = 0 :=
  ⟨rfl, missing_metadata_defaults exStoryRow ⟨some "https://example.com", "Example"⟩ rfl rfl⟩

/-- Counterexample for C2: a story row whose metadata score text "abc points"
fails integer parsing produces no Story at all — the parse returns the empty
list, not a Story with points = 0. -/
theorem scoreFailure_no_default_story :
    parseFrontPage [c2row, c2meta] = [] ∧
    c2row.isAthing = true ∧
    c2row.titleLink = some ⟨some "https://example.com", "Example"⟩ ∧
    c2meta.scoreText = some "abc points" ∧
    pyInt "abc" = none := by decide

/-- C2 as amended: when the score text's leading token fails to parse, the
raised ValueError is caught by the per-row handler, that row is skipped
entirely (no Story is produced for it), and parsing continues with the
remaining rows. -/
theorem scoreFailure_skips_row (s m : Row) (rest : List Row) (a : Anchor) (t tok : String)
    (hs : s.isAthing = true) (ha : s.titleLink = some a) (hm : m.isAthing = false)
    (ht : m.scoreText = some t) (htok : (pySplit t).head? = some tok)
    (hbad : pyInt tok = none) :
    parseFrontPage (s :: m :: rest) = parseFrontPage rest := by
  have hrow : parseStoryRow s (some m) = none := by
    simp [parseStoryRow, ha, parsePoints, ht, htok, hbad]
  simp [parseFrontPage, hs, hrow, hm]

/-- Witness for the amended C2: the malformed-score page parses to the same
result as the page without its two rows. -/
theorem scoreFailure_skips_row_witness :
    parseFrontPage [c2row, c2meta] = parseFrontPage [] :=
  scoreFailure_skips_row c2row c2meta [] ⟨some "https://example.com", "Example"⟩
    "abc points" "abc" rfl rfl rfl rfl (by decide) (by decide)

lemma mem_of_listHasSub {needle hay : List Char} (h : listHasSub needle hay = true) :
    ∀ c ∈ needle, c ∈ hay := by
  induction hay with
  | nil =>
    simp [listHasSub, List.isEmpty_iff] at h
    simp [h]
  | cons x xs ih =>
    simp only [listHasSub, Bool.or_eq_true] at h
    cases h with
    | inl h =>
      rw [List.isPrefixOf_iff_prefix] at h
      exact fun c hc => h.subset hc
    | inr h =>
      exact fun c hc => List.mem_cons_of_mem x (ih h c hc)

lemma wordsAux_ne_nil (l : List Char) :
    ∀ acc, ((∃ c ∈ l, c.isWhitespace = false) ∨ acc ≠ []) → wordsAux l acc ≠ [] := by
  induction l with
  | nil =>
    intro acc h
    rcases h with h | h
    · simp at h
    · simp [wordsAux, List.isEmpty_iff, h]
  | cons c cs ih =>
    intro acc h
    by_cases hw : c.isWhitespace
    · have hcs : (∃ d ∈ cs, d.isWhitespace = false) ∨ acc ≠ [] := by
        rcases h with ⟨d, hd, hdw⟩ | h
        · rcases List.mem_cons.mp hd with rfl | hd
          · exact absurd hw (by simp [hdw])
          · exact Or.inl ⟨d, hd, hdw⟩
        · exact Or.inr h
      rcases hcs with hcs | hacc
      · by_cases hae : acc.isEmpty
        · simpa [wordsAux, hw, hae] using ih [] (Or.inl hcs)
        · simp [wordsAux, hw, hae]
      · have hae : acc.isEmpty = false := by
          cases acc with
          | nil => exact absurd rfl hacc
          | cons y ys => rfl
        simp [wordsAux, hw, hae]
    · have := ih (c :: acc) (Or.inr (by simp))
      simpa [wordsAux, hw] using this

lemma pySplit_head_of_contains (t : String) (h : strContains t "comment" = true) :
    ∃ tok, (pySplit t).head? = some tok := by
  have hc : 'c' ∈ t.data := mem_of_listHasSub h 'c' (by decide)
  have hne : wordsAux t.data [] ≠ [] :=
    wordsAux_ne_nil t.data [] (Or.inl ⟨'c', hc, by decide⟩)
  cases hsp : wordsAux t.data [] with
  | nil => exact absurd hsp hne
  | cons w ws => exact ⟨String.mk w, by simp [pySplit, hsp]⟩

lemma commentStep_of_matches (a : Anchor) (h : matchesComment a = true) (c : Int) :
    commentStep c a = some (commentVal a) := by
  obtain ⟨tok, htok⟩ :=
    pySplit_head_of_contains (pyStrip a.innerText) (by simpa [matchesComment] using h)
  rw [commentStep, commentVal]
  simp only [matchesComment] at h
  simp [h, htok]

lemma commentStep_of_not_matches (a : Anchor) (h : matchesComment a = false) (c : Int) :
    commentStep c a = some c := by
  rw [commentStep]
  simp only [matchesComment] at h
  simp [h]

lemma foldlM_commentStep (links : List Anchor) : ∀ c : Int,
    (links.filter matchesComment = [] → List.foldlM commentStep c links = some c) ∧
    (∀ a, (links.filter matchesComment).getLast? = some a →
      List.foldlM commentStep c links = some (commentVal a)) := by
  induction links with
  | nil => simp [List.foldlM]
  | cons x xs ih =>
    intro c
    by_cases hx : matchesComment x
    · constructor
      · intro hfil
        rw [List.filter_cons_of_pos hx] at hfil
        exact absurd hfil (by simp)
      · intro a ha
        rw [List.filter_cons_of_pos hx] at ha
        have hstep := commentStep_of_matches x hx c
        show (commentStep c x >>= fun c2 => List.foldlM commentStep c2 xs) = some (commentVal a)
        rw [hstep]
        show List.foldlM commentStep (commentVal x) xs = some (commentVal a)
        cases hfx : xs.filter matchesComment with
        | nil =>
          rw [hfx] at ha
          simp only [List.getLast?_singleton, Option.some.injEq] at ha
          rw [← ha]
          exact (ih (commentVal x)).1 hfx
        | cons y ys =>
          have ha2 : (xs.filter matchesComment).getLast? = some a := by
            rw [hfx] at ha ⊢
            simpa [List.getLast?_cons_cons] using ha
          exact (ih (commentVal x)).2 a ha2
    · have hxf : matchesComment x = false := Bool.not_eq_true _ ▸ Bool.of_not_eq_true hx
      have hstep := commentStep_of_not_matches x hxf c
      constructor
      · intro hfil
        rw [List.filter_cons_of_neg hx] at hfil
        show (commentStep c x >>= fun c2 => List.foldlM commentStep c2 xs) = some c
        rw [hstep]
        exact (ih c).1 hfil
      · intro a ha
        rw [List.filter_cons_of_neg hx] at ha
        show (commentStep c x >>= fun c2 => List.foldlM commentStep c2 xs) = some (commentVal a)
        rw [hstep]
        exact (ih c).2 a ha

/-- C10: when the metadata row's subtext cell holds at least one link whose
text contains "comment", the parsed comments value is the value of the last
such link in document order (its leading integer token, or 0 on parse
failure): each matching link's result overwrites the earlier ones. -/
theorem parseComments_last_wins (sub : Row) (links : List Anchor)
    (h1 : sub.subtextLinks = some links)
    (h2 : links.filter matchesComment ≠ []) :
    ∃ a, (links.filter matchesComment).getLast? = some a ∧
      parseComments (some sub) = some (commentVal a) := by
  cases hl : (links.filter matchesComment).getLast? with
  | none =>
    rw [List.getLast?_eq_none_iff] at hl
    exact absurd hl h2
  | some a =>
    refine ⟨a, rfl, ?_⟩
    rw [parseComments]
    rw [h1]
    exact ((foldlM_commentStep links 0).2 a hl)

/-- Witness for C10: with links "3 comments" then "7 comments", the parsed
value is 7, the last link's count. -/
theorem parseComments_last_wins_witness :
    parseComments (some c10meta) = some 7 := by
  obtain ⟨a, ha, hv⟩ := parseComments_last_wins c10meta
    [⟨some "item?id=1", "3 comments"⟩, ⟨some "item?id=1", "7 comments"⟩] rfl (by decide)
  have he : ([⟨some "item?id=1", "3 comments"⟩,
      (⟨some "item?id=1", "7 comments"⟩ : Anchor)].filter matchesComment).getLast? =
      some ⟨some "item?id=1", "7 comments"⟩ := by decide
  rw [he] at ha
  injection ha with ha2
  rw [hv, ← ha2]
  decide

lemma parsePoints_of_wfScore (m : Row) (h : wfScore m.scoreText = true) :
    ∃ k, parsePoints (some m) = some k ∧ 0 ≤ k := by
  rw [parsePoints]
  cases hm : m.scoreText with
  | none => exact ⟨0, rfl, le_refl 0⟩
  | some t =>
    rw [hm] at h
    rw [wfScore] at h
    cases htok : (pySplit t).head? with
    | none => rw [htok] at h; exact absurd h (by simp)
    | some tok =>
      rw [htok] at h
      simp only [] at h
      cases hint : pyInt tok with
      | none => simp [hint] at h
      | some k =>
        simp only [hint] at h
        refine ⟨k, ?_, by simpa using h⟩
        simp [htok, hint]

lemma foldlM_commentStep_nonneg (links : List Anchor) :
    ∀ c : Int, 0 ≤ c → (∀ a ∈ links, wfLink a = true) →
      ∃ k, List.foldlM commentStep c links = some k ∧ 0 ≤ k := by
  induction links with
  | nil => exact fun c hc _ => ⟨c, rfl, hc⟩
  | cons x xs ih =>
    intro c hc hall
    by_cases hx : matchesComment x
    · have hval : (0 : Int) ≤ commentVal x := by
        have := hall x (List.mem_cons_self x xs)
        rw [wfLink] at this
        simpa [hx] using this
      obtain ⟨k, hk, hk0⟩ := ih (commentVal x) hval
        (fun a ha => hall a (List.mem_cons_of_mem x ha))
      refine ⟨k, ?_, hk0⟩
      show (commentStep c x >>= fun c2 => List.foldlM commentStep c2 xs) = some k
      rw [commentStep_of_matches x hx c]
      exact hk
    · have hxf : matchesComment x = false := Bool.of_not_eq_true hx
      obtain ⟨k, hk, hk0⟩ := ih c hc (fun a ha => hall a (List.mem_cons_of_mem x ha))
      refine ⟨k, ?_, hk0⟩
      show (commentStep c x >>= fun c2 => List.foldlM commentStep c2 xs) = some k
      rw [commentStep_of_not_matches x hxf c]
      exact hk

lemma parseComments_of_wfLinks (m : Row)
    (h : ∀ links, m.subtextLinks = some links → ∀ a ∈ links, wfLink a = true) :
    ∃ k, parseComments (some m) = some k ∧ 0 ≤ k := by
  cases hm : m.subtextLinks with
  | none => exact ⟨0, by simp [parseComments, hm], le_refl 0⟩
  | some links =>
    obtain ⟨k, hk, hk0⟩ := foldlM_commentStep_nonneg links 0 (le_refl 0) (h links hm)
    exact ⟨k, by simp [parseComments, hm, commentsFold, hk], hk0⟩

lemma strIsEmpty_false_ne (s : String) (h : strIsEmpty s = false) : s ≠ "" := by
  intro he
  rw [he] at h
  exact absurd h (by decide)

lemma parseStoryRow_of_wellFormed (s m : Row) (hb : wellFormedBlock s m = true) :
    ∃ st, parseStoryRow s (some m) = some st ∧
      0 ≤ st.points ∧ 0 ≤ st.comments ∧ st.title ≠ "" := by
  cases hts : s.titleLink with
  | none => rw [wellFormedBlock, hts] at hb; exact absurd hb (by simp)
  | some a =>
    rw [wellFormedBlock, hts] at hb
    simp only [Bool.and_eq_true, Bool.not_eq_true'] at hb
    obtain ⟨⟨⟨⟨_, htitle⟩, _⟩, hscore⟩, hlinks⟩ := hb
    obtain ⟨p, hp, hp0⟩ := parsePoints_of_wfScore m hscore
    have hlinks2 : ∀ links, m.subtextLinks = some links → ∀ a2 ∈ links, wfLink a2 = true := by
      intro links hl a2 ha2
      rw [hl] at hlinks
      exact List.all_eq_true.mp hlinks a2 ha2
    obtain ⟨c, hc, hc0⟩ := parseComments_of_wfLinks m hlinks2
    refine ⟨⟨pyStrip a.innerText, resolveLink (a.href.getD ""), p, c⟩, ?_, hp0, hc0, ?_⟩
    · simp [parseStoryRow, hts, hp, hc]
    · exact strIsEmpty_false_ne _ htitle

/-- C1: a front page of N well-formed story rows, each immediately followed
by its metadata row, parses to exactly N Story records in display order;
block i produces story i, and every story has non-negative points and
comments and a non-empty title. -/
theorem parseFrontPage_wellFormed (blocks : List (Row × Row))
    (h : ∀ b ∈ blocks, wellFormedBlock b.1 b.2 = true) :
    List.Forall₂ (fun (b : Row × Row) (st : Story) =>
        parseStoryRow b.1 (some b.2) = some st ∧
        0 ≤ st.points ∧ 0 ≤ st.comments ∧ st.title ≠ "")
      blocks (parseFrontPage (pageOfBlocks blocks)) := by
  induction blocks with
  | nil => simp [pageOfBlocks, parseFrontPage]
  | cons b bs ih =>
    obtain ⟨s, m⟩ := b
    have hb := h (s, m) (List.mem_cons_self _ _)
    have hrest : ∀ b2 ∈ bs, wellFormedBlock b2.1 b2.2 = true :=
      fun b2 hb2 => h b2 (List.mem_cons_of_mem _ hb2)
    obtain ⟨st, hst, hp0, hc0, htt⟩ := parseStoryRow_of_wellFormed s m hb
    have hs : s.isAthing = true := by
      rw [wellFormedBlock] at hb
      simp only [Bool.and_eq_true] at hb
      exact hb.1.1.1.1
    have hm : m.isAthing = false := by
      rw [wellFormedBlock] at hb
      simp only [Bool.and_eq_true, Bool.not_eq_true'] at hb
      exact hb.1.1.2
    have hpage : pageOfBlocks ((s, m) :: bs) = s :: m :: pageOfBlocks bs := by
      simp [pageOfBlocks]
    rw [hpage]
    have hparse : parseFrontPage (s :: m :: pageOfBlocks bs) =
        st :: parseFrontPage (pageOfBlocks bs) := by
      rw [parseFrontPage]
      simp only [hs, if_true]
      simp only [List.head?_cons, hst]
      rw [parseFrontPage]
      simp [hm]
    rw [hparse]
    exact List.Forall₂.cons ⟨hst, hp0, hc0, htt⟩ (ih hrest)

/-- Witness for C1: the spec's worked example block parses to exactly the
expected single story. -/
theorem parseFrontPage_wellFormed_witness :
    (∀ b ∈ [(exStoryRow, exMetaRow)], wellFormedBlock b.1 b.2 = true) ∧
    List.Forall₂ (fun (b : Row × Row) (st : Story) =>
        parseStoryRow b.1 (some b.2) = some st ∧
        0 ≤ st.points ∧ 0 ≤ st.comments ∧ st.title ≠ "")
      [(exStoryRow, exMetaRow)] (parseFrontPage (pageOfBlocks [(exStoryRow, exMetaRow)])) :=
  ⟨by decide, parseFrontPage_wellFormed [(exStoryRow, exMetaRow)] (by decide)⟩

lemma map_story_filterMap (l : List Story) (f : Story → Option String) :
    (l.filterMap (fun a => (f a).map (fun s => Summary.mk a s))).map Summary.story =
      l.filter (fun a => (f a).isSome) := by
  induction l with
  | nil => rfl
  | cons x xs ih =>
    cases hf : f x with
    | none => simp [List.filterMap_cons, hf, List.filter_cons, ih]
    | some s => simp [List.filterMap_cons, hf, List.filter_cons, ih]

/-- C8: in every run of the orchestrator, the number of summaries is at most
the number of stories processed, at most 30 stories are processed (never
more than exist), and the summaries are exactly the order-preserving
subsequence of the first 30 stories whose summarization call succeeded. -/
theorem runMain_summary_invariants (articles : List Story)
    (summarize : Story → Option String) (digest : String → String) (dateStr : String) :
    ((runMain articles summarize digest dateStr).summaries.map Summary.story =
      (articles.take 30).filter (fun a => (summarize a).isSome)) ∧
    (runMain articles summarize digest dateStr).summaries.length ≤
      (runMain articles summarize digest dateStr).summarizeCalls ∧
    (runMain articles summarize digest dateStr).summarizeCalls ≤ 30 ∧
    (runMain articles summarize digest dateStr).summarizeCalls ≤ articles.length ∧
    List.Sublist ((runMain articles summarize digest dateStr).summaries.map Summary.story)
      (articles.take 30) := by
  by_cases he : articles.isEmpty = true
  · have h0 : articles = [] := List.isEmpty_iff.mp he
    subst h0
    refine ⟨rfl, ?_, ?_, ?_, ?_⟩ <;> simp [runMain]
  · have hsum : (runMain articles summarize digest dateStr).summaries =
        summarizeBatch articles summarize := by
      simp [runMain, he]
    have hcalls : (runMain articles summarize digest dateStr).summarizeCalls =
        (articles.take 30).length := by
      simp [runMain, he]
    refine ⟨?_, ?_, ?_, ?_, ?_⟩
    · rw [hsum]
      exact map_story_filterMap (articles.take 30) summarize
    · rw [hsum, hcalls]
      exact List.length_filterMap_le _ _
    · rw [hcalls, List.length_take]
      exact Nat.min_le_left _ _
    · rw [hcalls, List.length_take]
      exact Nat.min_le_right _ _
    · rw [hsum, summarizeBatch]
      rw [map_story_filterMap (articles.take 30) summarize]
      exact List.filter_sublist _

/-- C9: when the front page parses to zero stories, the run prints the
informational message and terminates with no summarization call, no digest
call, and no output file. -/
theorem runMain_no_articles (summarize : Story → Option String)
    (digest : String → String) (dateStr : String) (articles : List Story)
    (h : articles = []) :
    runMain articles summarize digest dateStr =
      ⟨some "No articles found. Exiting.", 0, 0, [], none⟩ := by
  subst h
  rfl

/-- Witness for C9: the empty article list yields the no-articles outcome. -/
theorem runMain_no_articles_witness :
    runMain [] (fun _ => none) (fun p => p) "2026-10-12" =
      ⟨some "No articles found. Exiting.", 0, 0, [], none⟩ :=
  runMain_no_articles (fun _ => none) (fun p => p) "2026-10-12" [] rfl
